import Mathlib

/-!
Verification of the Alpha House PnL bot (`main.py`).

The development shallowly embeds the bot's core pipeline in Lean:

* `detect_contract_address` — the address extractor, including a faithful
  model of the two regular expressions (`\b0x[a-fA-F0-9]{40}\b` and
  `\b[1-9A-HJ-NP-Za-km-z]{32,44}\b`) with Python `re.findall` scanning
  semantics (left-to-right, non-overlapping, first match wins).  Word
  boundaries `\b` are modelled for ASCII text, which is the scope of both
  patterns.
* `get_token_data` — the market-data resolver.  The HTTP layer is replaced
  by the parsed JSON payload (`Option (List Pair)`); numeric JSON fields
  arrive as `Option ℚ` (already parsed decimals; binary floating point is
  out of scope of this model).
* the snapshot store — the `tracked.json` dictionary is passed around
  explicitly as an association list with unique keys (`Store`); file
  persistence is a transport concern and not modelled.
* `multiplier` — the gain computation from the `/pnl` handler.
* the card renderer — `make_card_image` is modelled as the construction of
  a list of drawing commands (`DrawOp`) followed by a fallible encode step.
  All effectful collaborators (local files, remote fetches, font loading,
  text measurement, encoding) live in a `RenderEnv` record so that failure
  semantics can be quantified over.  Pixel contents and decimal string
  formatting are presentation details abstracted by the `TextItem` payloads.
* the command handlers `handle_message`, `pnl` (its identifier-resolution
  and lookup phase) and `untrack`.
-/

namespace AlphaHouse

/-! ## Character classes of the two address regexes -/

/-- Python `\w` (word character) for ASCII text: `[A-Za-z0-9_]`. -/
def isWordChar (c : Char) : Bool :=
  c.isAlphanum || c = '_'

/-- The character class `[a-fA-F0-9]` of the EVM address pattern. -/
def isHexDigitChar (c : Char) : Bool :=
  ('a' ≤ c && c ≤ 'f') || ('A' ≤ c && c ≤ 'F') || ('0' ≤ c && c ≤ '9')

/-- Lower-case hexadecimal digits `[a-f0-9]`; the shape of a stored EVM key
after the `.lower()` normalisation performed by the extractor. -/
def isLowerHexChar (c : Char) : Bool :=
  ('a' ≤ c && c ≤ 'f') || ('0' ≤ c && c ≤ '9')

/-- The base-58 character class `[1-9A-HJ-NP-Za-km-z]` of the SOL address
pattern (digits and letters minus the visually ambiguous `0OIl`). -/
def isBase58Char (c : Char) : Bool :=
  ('1' ≤ c && c ≤ '9') || ('A' ≤ c && c ≤ 'H') || ('J' ≤ c && c ≤ 'N') ||
  ('P' ≤ c && c ≤ 'Z') || ('a' ≤ c && c ≤ 'k') || ('m' ≤ c && c ≤ 'z')

/-- Python `str.lower()` for ASCII text: lower-case every character.
`Char.toLower` (Lean core) maps `A`–`Z` to `a`–`z` and fixes everything
else, exactly as CPython does on ASCII input. -/
def pyLower (s : String) : String :=
  String.mk (s.data.map Char.toLower)

/-! ## The two regular expressions and `re.findall`

Both patterns start and end with a word character (hex digits and base-58
characters are word characters), so the `\b` assertions reduce to: the
preceding character (if any) is not a word character, and the following
character (if any) is not a word character. -/

/-- A `\b` assertion immediately before a word character: satisfied at the
start of the text or after a non-word character. -/
def boundaryBefore (prev : Option Char) : Bool :=
  match prev with
  | none => true
  | some c => !isWordChar c

/-- A `\b` assertion immediately after a word character: satisfied at the
end of the text or before a non-word character. -/
def boundaryAfter (post : List Char) : Bool :=
  match post with
  | [] => true
  | c :: _ => !isWordChar c

/-- Attempt to match `\b0x[a-fA-F0-9]{40}\b` at the current position.
`prev` is the character immediately before the position (`none` at the
start of the text).  On success, returns the 42-character match and the
remaining text.  The repetition is of fixed length, so no backtracking
arises. -/
def evmMatchAt (prev : Option Char) (s : List Char) : Option (List Char × List Char) :=
  let m := s.take 42
  let post := s.drop 42
  if boundaryBefore prev && m.length == 42 &&
      (match m with
       | '0' :: 'x' :: body => body.all isHexDigitChar
       | _ => false) &&
      boundaryAfter post
  then some (m, post) else none

/-- Attempt to match `\b[1-9A-HJ-NP-Za-km-z]{32,44}\b` at the current
position.  Greedy matching with backtracking collapses to: the maximal
base-58 run starting here must itself have length in `[32, 44]` and be
followed by a boundary — any shorter candidate ends in front of a base-58
(hence word) character, where `\b` fails. -/
def solMatchAt (prev : Option Char) (s : List Char) : Option (List Char × List Char) :=
  let run := s.takeWhile isBase58Char
  let post := s.drop run.length
  if boundaryBefore prev && 32 ≤ run.length && run.length ≤ 44 &&
      boundaryAfter post
  then some (run, post) else none

/-- Python `re.findall` scanning: try a match at every position from left
to right; on success emit the match and resume after it (non-overlapping),
on failure advance one character.  `fuel` bounds the recursion; both
matchers consume at least one character per emitted match, so `s.length`
fuel is always sufficient. -/
def findallAux (matchAt : Option Char → List Char → Option (List Char × List Char)) :
    Option Char → List Char → Nat → List (List Char)
  | _, _, 0 => []
  | prev, s, fuel + 1 =>
    match s with
    | [] => []
    | c :: rest =>
      match matchAt prev s with
      | some (m, post) => m :: findallAux matchAt m.getLast? post fuel
      | none => findallAux matchAt (some c) rest fuel

/-- `re.findall(evm_pattern, msg)`. -/
def evm_findall (msg : String) : List String :=
  (findallAux evmMatchAt none msg.data msg.data.length).map String.mk

/-- `re.findall(sol_pattern, msg)`. -/
def sol_findall (msg : String) : List String :=
  (findallAux solMatchAt none msg.data msg.data.length).map String.mk

/-- Chain family tag returned by the extractor. -/
inductive ChainFamily
  | EVM
  | SOL
deriving DecidableEq, Repr

/-- `detect_contract_address` from `main.py`: empty text yields nothing;
otherwise the EVM pattern is tried first and its first match returned
lower-cased; only if it has no match is the SOL pattern tried, its first
match returned with case preserved. -/
def detect_contract_address (msg : String) : Option String × Option ChainFamily :=
  if msg = "" then (none, none)
  else
    match evm_findall msg with
    | e :: _ => (some (pyLower e), some ChainFamily.EVM)
    | [] =>
      match sol_findall msg with
      | s :: _ => (some s, some ChainFamily.SOL)
      | [] => (none, none)

/-! ## Snapshot store

The bot keeps its baselines in the JSON dictionary `tracked.json`, loaded
and saved around every access.  The dictionary is modelled as an
association list with unique keys, passed to and returned from every
handler; `load_data`/`save_data` persistence is I/O glue outside the
model. -/

/-- One stored baseline snapshot: the record written by `handle_message`. -/
structure Snap where
  price : ℚ
  mcap : ℚ
  symbol : String
  chain : String
  time : Nat
  poster : String
deriving DecidableEq, Repr

/-- The tracked-token dictionary. -/
abbrev Store := List (String × Snap)

/-- Dictionary lookup `stored[ca]` / membership `ca in stored`. -/
def storeGet (st : Store) (ca : String) : Option Snap :=
  (st.find? (fun p => p.1 == ca)).map (·.2)

/-- The keys of the dictionary. -/
def storeKeys (st : Store) : List String :=
  st.map (·.1)

/-- Dictionary deletion `del data[ca]`. -/
def storeRemove (st : Store) (ca : String) : Store :=
  st.filter (fun p => p.1 != ca)

/-- The check-then-insert performed by `handle_message` on `tracked.json`
(`if ca not in stored: stored[ca] = …`): insert a snapshot only when the
identifier is absent, report whether the insert happened, and return the
resulting dictionary. -/
def insertIfAbsent (st : Store) (ca : String) (snap : Snap) : Bool × Store :=
  match storeGet st ca with
  | some _ => (false, st)
  | none => (true, st ++ [(ca, snap)])

/-! ## Market data resolver (`get_token_data`) -/

/-- The `baseToken` sub-object of a DexScreener pair record. -/
structure BaseToken where
  symbol : Option String
  name : Option String
deriving DecidableEq, Repr

/-- One trading-pair record of the DexScreener payload.  Numeric fields are
modelled as parsed decimals (`Option ℚ`); a `none` models an absent (or
JSON `null`) field. -/
structure Pair where
  priceUsd : Option ℚ
  fdv : Option ℚ
  baseToken : Option BaseToken
  chainId : Option String
deriving DecidableEq, Repr

/-- The normalised quote returned by `get_token_data`. -/
structure TokenData where
  price : ℚ
  mcap : ℚ
  symbol : String
  chain : String
deriving DecidableEq, Repr

/-- Python `a or b` for an optional string `a`, where both a missing field
and an empty string are falsy. -/
def pyOrStr (a : Option String) (b : String) : String :=
  match a with
  | some s => if s = "" then b else s
  | none => b

/-- `get_token_data` from `main.py`, with the HTTP transport replaced by
its parsed payload: `none` models both a transport failure and a payload
without a `pairs` key; `some []` (and JSON `null`, also falsy) model an
empty pair list.  The first record is authoritative; `float(… or 0)`
coerces a missing numeric field to 0; the display symbol falls back from
`baseToken.symbol` to `baseToken.name` to the first 8 characters of the
identifier; `chainId` defaults to `"unknown"`. -/
def get_token_data (ca : String) (pairs : Option (List Pair)) : Option TokenData :=
  match pairs with
  | some (p :: _) =>
    let bt := p.baseToken.getD { symbol := none, name := none }
    some { price := p.priceUsd.getD 0
           mcap := p.fdv.getD 0
           symbol := pyOrStr bt.symbol (pyOrStr bt.name (ca.take 8))
           chain := p.chainId.getD "unknown" }
  | _ => none

/-! ## Multiplier engine

Lines 279–286 of `main.py` (inside the `/pnl` handler).  Python float
truthiness on the four quote fields is `≠ 0`; the inner conditional
expressions (`… if start_mcap else 0`) are kept even though their guard is
implied by the outer condition, mirroring the source. -/

/-- The gain multiplier: market caps take precedence when both are nonzero,
then prices, else the sentinel 0. -/
def multiplier (start_mcap start_price now_mcap now_price : ℚ) : ℚ :=
  if start_mcap ≠ 0 ∧ now_mcap ≠ 0 then
    (if start_mcap ≠ 0 then now_mcap / start_mcap else 0)
  else if start_price ≠ 0 ∧ now_price ≠ 0 then
    (if start_price ≠ 0 then now_price / start_price else 0)
  else 0

/-! ## Card renderer -/

/-- The four illustration tiers. -/
inductive MemeKey
  | low
  | mid
  | high
  | ultra
deriving DecidableEq, Repr

/-- Tier selection by multiplier thresholds (lines 130–139 of `main.py`).
The first two branches both map to `low`, as in the source. -/
def meme_key (m : ℚ) : MemeKey :=
  if m < 1 then MemeKey.low
  else if 1 ≤ m ∧ m < 2 then MemeKey.low
  else if 2 ≤ m ∧ m < 10 then MemeKey.mid
  else if 10 ≤ m ∧ m < 20 then MemeKey.high
  else MemeKey.ultra

/-- Local illustration filename per tier (`LOCAL_MEMES`). -/
def LOCAL_MEMES : MemeKey → String
  | MemeKey.low => "lowx.png"
  | MemeKey.mid => "midx.png"
  | MemeKey.high => "highx.png"
  | MemeKey.ultra => "ultrax.png"

/-- Remote fallback URL list per tier (`FALLBACK_MEMES`). -/
def FALLBACK_MEMES : MemeKey → List String
  | MemeKey.low => ["https://i.imgur.com/7yA0d1Y.png"]
  | MemeKey.mid => ["https://i.imgur.com/8mKXc3T.png"]
  | MemeKey.high => ["https://i.imgur.com/0qK7w9H.png"]
  | MemeKey.ultra => ["https://i.imgur.com/9Yy3GxD.png"]

/-- Canvas width in pixels. -/
def CARD_WIDTH : Nat := 900

/-- Canvas height in pixels. -/
def CARD_HEIGHT : Nat := 520

/-- Watermark string. -/
def WATERMARK_TEXT : String := "The Alpha House"

/-- An illustration image, abstracted to its pixel dimensions. -/
structure Img where
  width : Nat
  height : Nat
deriving DecidableEq, Repr

/-- A font value: either PIL's built-in default bitmap typeface (a fixed
10-pixel font, matching the `size > 10` floor of `fit_text`) or a truetype
font at a given pixel size. -/
inductive FontT
  | default
  | truetype (path : String) (size : Nat)
deriving DecidableEq, Repr

/-- The pixel size of a font value. -/
def fontSize : FontT → Nat
  | FontT.default => 10
  | FontT.truetype _ s => s

/-- The text payload of a drawing command.  The numeric values are kept as
values; their decimal string formatting (`:,`, `:.2f`, `:,.8f`) is a
presentation detail not modelled. -/
inductive TextItem
  | title (symbol : String)
  | mult (m : ℚ)
  | calledMcap (v : Int)
  | nowMcapLine (v : Int)
  | startPriceLine (v : ℚ)
  | nowPriceLine (v : ℚ)
  | bottomLine (chain : String) (ts : String)
  | watermark
deriving DecidableEq, Repr

/-- A drawing command issued against the card canvas. -/
inductive DrawOp
  | paste (img : Img) (x y : Int)
  | text (x y : Int) (item : TextItem) (font : FontT) (fill : Nat × Nat × Nat)
deriving DecidableEq, Repr

/-- The effectful collaborators of the renderer.  Every `Option`/`Bool`
result models the success or failure (exception) of the corresponding
Python call.  Font loading success depends only on the font file, not on
the requested size, as with `ImageFont.truetype`. -/
structure RenderEnv where
  localExists : String → Bool
  localOpen : String → Option Img
  fetchImage : String → Option Img
  fontLoads : String → Bool
  textSize : TextItem → FontT → Nat × Nat
  encodePNG : List DrawOp → Option (List Nat)
  nowStr : String

/-- The fallback-URL loop of `choose_local_or_fallback`: try each URL in
order, first successful fetch wins, all failures swallowed. -/
def tryFallbackUrls (env : RenderEnv) : List String → Option Img
  | [] => none
  | u :: rest =>
    match env.fetchImage u with
    | some img => some img
    | none => tryFallbackUrls env rest

/-- `choose_local_or_fallback` from `main.py`: prefer the local file when
it exists and opens; otherwise try the remote fallback URLs in order;
`none` when everything fails. -/
def choose_local_or_fallback (env : RenderEnv) (key : MemeKey) : Option Img :=
  let local_name := LOCAL_MEMES key
  match (if env.localExists local_name then env.localOpen local_name else none) with
  | some img => some img
  | none => tryFallbackUrls env (FALLBACK_MEMES key)

/-- The font candidate paths tried by `make_card_image`, in order. -/
def font_candidates : List String :=
  ["/usr/share/fonts/truetype/dejavu/DejaVuSans-Bold.ttf",
   "/usr/share/fonts/truetype/liberation/LiberationSans-Bold.ttf",
   "arial.ttf"]

/-- The font-candidate loop of `make_card_image`: the first candidate path
that loads is used for every text element of the render call; `none` means
every candidate failed and the built-in default typeface is used. -/
def pickFontPath (env : RenderEnv) : Option String :=
  font_candidates.find? env.fontLoads

/-- `ImageFont.truetype(font_path, size) if font_path else
ImageFont.load_default()`. -/
def mkFont (font_path : Option String) (size : Nat) : FontT :=
  match font_path with
  | some p => FontT.truetype p size
  | none => FontT.default

/-- PIL `Image.thumbnail`: aspect-preserving shrink-to-fit; an image
already inside the box is unchanged.  Sub-pixel rounding is abstracted to
floor division. -/
def thumbnailFit (img : Img) (maxW maxH : Nat) : Img :=
  if img.width ≤ maxW && img.height ≤ maxH then img
  else
    let w := min maxW (img.width * maxH / img.height)
    let h := min maxH (img.height * maxW / img.width)
    { width := max w 1, height := max h 1 }

/-- Python `int(q)`: truncation toward zero. -/
def pyInt (q : ℚ) : Int :=
  if 0 ≤ q then ⌊q⌋ else ⌈q⌉

/-- The shrink-to-fit loop of `fit_text`, recursing on a fuel counter that
starts at the initial size.  Each iteration consumes one fuel unit and
decreases the candidate size by 2, so the `size > 10` floor is always
reached before the fuel runs out; the fuel-exhausted result coincides with
the floor result (the default typeface) in any case.  `loadOk` models the
`try`/`except` around font construction and measurement: a failure returns
the default typeface immediately. -/
def fit_text_go (measure : FontT → Nat) (loadOk : Bool) (font_path : Option String)
    (max_width : Nat) : Nat → Nat → FontT
  | 0, _ => FontT.default
  | fuel + 1, size =>
    if 10 < size then
      if loadOk then
        if measure (mkFont font_path size) ≤ max_width then mkFont font_path size
        else fit_text_go measure loadOk font_path max_width fuel (size - 2)
      else FontT.default
    else FontT.default

/-- `fit_text` from `main.py`: starting at `start_size`, decrease the
candidate size in steps of 2 until the measured width of the text fits
within `max_width`; return the default typeface when the `size > 10` floor
is reached without a fit (or when font construction fails).  `measure`
abstracts `draw.textbbox` width measurement of the call's fixed text. -/
def fit_text (measure : FontT → Nat) (loadOk : Bool) (font_path : Option String)
    (max_width : Nat) (start_size : Nat) : FontT :=
  fit_text_go measure loadOk font_path max_width start_size start_size

/-- The sequence of drawing commands issued by `make_card_image`, in source
order: optional illustration paste, title, four glow copies of the
multiplier, the multiplier itself, four metadata lines, the bottom
chain/timestamp line and the watermark. -/
def renderOps (env : RenderEnv) (symbol ca : String)
    (start_mcap start_price now_mcap now_price mult : ℚ) (chain : String) : List DrawOp :=
  let key := meme_key mult
  let pasteOps : List DrawOp :=
    match choose_local_or_fallback env key with
    | some m =>
      let resized := thumbnailFit m (CARD_WIDTH * 44 / 100) (CARD_HEIGHT * 9 / 10)
      [DrawOp.paste resized ((CARD_WIDTH : Int) - resized.width - 30)
        (((CARD_HEIGHT : Int) - resized.height) / 2)]
    | none => []
  let font_path := pickFontPath env
  let left_x : Int := 36
  let left_w : Nat := CARD_WIDTH * 55 / 100 - 60
  let title_font := fit_text (fun f => (env.textSize (TextItem.title symbol) f).1)
    true font_path left_w 72
  let mult_font := fit_text (fun f => (env.textSize (TextItem.mult mult) f).1)
    true font_path left_w 96
  let neon : Nat × Nat × Nat := if 1 ≤ mult then (0, 255, 140) else (255, 100, 100)
  let small_font := mkFont font_path 22
  let bottom_font := mkFont font_path 14
  let wm_font := mkFont font_path 18
  let wmSize := env.textSize TextItem.watermark wm_font
  pasteOps ++
  [DrawOp.text left_x 30 (TextItem.title symbol) title_font (255, 255, 255)] ++
  ([(-3, -3), (3, 3), (-4, 0), (0, 4)].map (fun (d : Int × Int) =>
    DrawOp.text (left_x + d.1) (110 + d.2) (TextItem.mult mult) mult_font (2, 70, 30))) ++
  [DrawOp.text left_x 110 (TextItem.mult mult) mult_font neon,
   DrawOp.text left_x 230 (TextItem.calledMcap (pyInt start_mcap)) small_font (200, 200, 200),
   DrawOp.text left_x 262 (TextItem.nowMcapLine (pyInt now_mcap)) small_font (255, 255, 255),
   DrawOp.text left_x 294 (TextItem.startPriceLine start_price) small_font (170, 170, 170),
   DrawOp.text left_x 322 (TextItem.nowPriceLine now_price) small_font (255, 255, 255),
   DrawOp.text left_x ((CARD_HEIGHT : Int) - 38) (TextItem.bottomLine chain env.nowStr)
     bottom_font (140, 140, 140),
   DrawOp.text ((CARD_WIDTH : Int) - wmSize.1 - 16) ((CARD_HEIGHT : Int) - wmSize.2 - 12)
     TextItem.watermark wm_font (120, 120, 120)]

/-- `make_card_image` from `main.py`: build the drawing command list, then
encode the canvas to PNG bytes.  The encode step (`img.save`) is the only
fallible operation whose failure escapes the function. -/
def make_card_image (env : RenderEnv) (symbol ca : String)
    (start_mcap start_price now_mcap now_price mult : ℚ) (chain : String) :
    Except String (List Nat) :=
  match env.encodePNG (renderOps env symbol ca start_mcap start_price now_mcap now_price mult chain) with
  | some bytes => Except.ok bytes
  | none => Except.error "encode failure"

/-! ## Command handlers -/

/-- The user-visible outcome of `handle_message`. -/
inductive HandleReply
  | ignored
  | fetchFailed
  | tracking (symbol : String) (fam : Option ChainFamily)
  | alreadyTracking
deriving DecidableEq, Repr

/-- `handle_message` from `main.py`: extract an identifier from the text,
resolve it (`resolve` abstracts `get_token_data` applied to the live
payload), and insert a first-seen baseline into the store; a later message
with the same identifier only replies "Already tracking". -/
def handle_message (st : Store) (text : String) (resolve : String → Option TokenData)
    (now : Nat) (poster : String) : HandleReply × Store :=
  match detect_contract_address text with
  | (some ca, fam) =>
    match resolve ca with
    | none => (HandleReply.fetchFailed, st)
    | some d =>
      match storeGet st ca with
      | none =>
        (HandleReply.tracking d.symbol fam,
         st ++ [(ca, { price := d.price, mcap := d.mcap, symbol := d.symbol,
                       chain := d.chain, time := now, poster := poster })])
      | some _ => (HandleReply.alreadyTracking, st)
  | (none, _) => (HandleReply.ignored, st)

/-- The identifier-resolution phase of the `/pnl` handler: with an explicit
argument (`len(parts) > 1`) the argument `parts[1]` is used verbatim;
otherwise, with a replied-to message, its text goes through
`detect_contract_address`. -/
def pnl_resolve_ca (parts : List String) (replied : Option String) : Option String :=
  match parts with
  | _ :: arg :: _ => some arg
  | _ =>
    match replied with
    | some t => (detect_contract_address t).1
    | none => none

/-- The outcome of the store-lookup phase of `/pnl`. -/
inductive PnlLookup
  | usage
  | unknown
  | found (ca : String) (snap : Snap)
deriving DecidableEq, Repr

/-- The identifier resolution and baseline lookup of the `/pnl` handler:
no identifier yields the usage reply; an identifier absent from the store
yields the "I don't have this CA yet" reply; otherwise the baseline is
found under the resolved key. -/
def pnl_lookup (st : Store) (parts : List String) (replied : Option String) : PnlLookup :=
  match pnl_resolve_ca parts replied with
  | none => PnlLookup.usage
  | some ca =>
    match storeGet st ca with
    | none => PnlLookup.unknown
    | some snap => PnlLookup.found ca snap

/-- The user-visible outcome of `/untrack`. -/
inductive UntrackReply
  | usage
  | removed (ca : String)
  | notTracked
deriving DecidableEq, Repr

/-- `untrack` from `main.py`: the argument `parts[1]` is lower-cased
before the dictionary lookup; a hit deletes that (lower-cased) key, a miss
replies that the identifier is not tracked. -/
def untrack (st : Store) (parts : List String) : UntrackReply × Store :=
  match parts with
  | _ :: arg :: _ =>
    let ca := pyLower arg
    match storeGet st ca with
    | some _ => (UntrackReply.removed ca, storeRemove st ca)
    | none => (UntrackReply.notTracked, st)
  | _ => (UntrackReply.usage, st)

/-! ## Shapes of store keys

Every key inserted into the store is an output of
`detect_contract_address`: either a lower-cased EVM address or a
case-preserved base-58 SOL address. -/

/-- The shape of a stored EVM key: `0x` followed by 40 lower-case
hexadecimal digits. -/
def isEVMKeyShape (k : String) : Bool :=
  match k.data with
  | '0' :: 'x' :: body => body.length == 40 && body.all isLowerHexChar
  | _ => false

/-- The shape of a stored SOL key: 32 to 44 base-58 characters. -/
def isSolKeyShape (k : String) : Bool :=
  32 ≤ k.data.length && k.data.length ≤ 44 && k.data.all isBase58Char

/-- Any possible output of `detect_contract_address`. -/
def isDetectKeyShape (k : String) : Bool :=
  isEVMKeyShape k || isSolKeyShape k

/-! ## Concrete fixtures used by witnesses and counterexamples -/

/-- A sample baseline snapshot. -/
def snapA : Snap :=
  { price := 1, mcap := 100, symbol := "ALPHA", chain := "solana",
    time := 1000, poster := "alice" }

/-- A second, distinct snapshot. -/
def snapB : Snap :=
  { price := 4, mcap := 250, symbol := "BETA", chain := "ethereum",
    time := 2000, poster := "bob" }

/-- Is a drawing command an illustration paste? -/
def opIsPaste : DrawOp → Bool
  | DrawOp.paste _ _ _ => true
  | DrawOp.text _ _ _ _ _ => false

/-- Does a drawing command use only the built-in default typeface?
(Pastes vacuously do.) -/
def opUsesDefaultFont : DrawOp → Bool
  | DrawOp.text _ _ _ FontT.default _ => true
  | DrawOp.text _ _ _ (FontT.truetype _ _) _ => false
  | DrawOp.paste _ _ _ => true

/-- A render environment in which every local file is absent, every remote
fetch and every font load fails, and encoding succeeds. -/
def envAllFail : RenderEnv :=
  { localExists := fun _ => false
    localOpen := fun _ => none
    fetchImage := fun _ => none
    fontLoads := fun _ => false
    textSize := fun _ _ => (0, 0)
    encodePNG := fun _ => some [137, 80, 78, 71]
    nowStr := "Jan 01 00:00" }

/-- A pair record whose base token has no symbol but does carry a name. -/
def pairNameOnly : Pair :=
  { priceUsd := none, fdv := none,
    baseToken := some { symbol := none, name := some "ALPHA" }, chainId := none }

/-- A well-formed EVM address containing upper-case hex digits. -/
def evmW : String := "0xAbCdEf1234567890aBcDeF1234567890AbCdEf12"

/-- A message containing both an EVM-style address (`evmW`) and a base-58
SOL-style run (32 capital `A`s). -/
def msgBothW : String :=
  "buy 0xAbCdEf1234567890aBcDeF1234567890AbCdEf12 or AAAAAAAAAAAAAAAAAAAAAAAAAAAAAAAA now"

/-- A 32-character base-58 SOL identifier containing an upper-case letter. -/
def solUpW : String := "Aaaaaaaaaaaaaaaaaaaaaaaaaaaaaaaa"

/-- The all-lower-case variant of `solUpW`. -/
def solLowW : String := "aaaaaaaaaaaaaaaaaaaaaaaaaaaaaaaa"

/-- A store tracking both the mixed-case SOL identifier and its lower-case
variant. -/
def st9 : Store := [(solUpW, snapA), (solLowW, snapB)]

/-- A stored (lower-cased) EVM key. -/
def evmKeyW : String := "0xaaaaaaaaaaaaaaaaaaaaaaaaaaaaaaaaaaaaaaaa"

/-- The same EVM address with one upper-case hex digit. -/
def evmArgW : String := "0xAaaaaaaaaaaaaaaaaaaaaaaaaaaaaaaaaaaaaaaa"

/-- A store tracking the lower-cased EVM key. -/
def st10 : Store := [(evmKeyW, snapA)]

/-! ## Theorems -/

section Lemmata

lemma char_le_iff (a b : Char) : a ≤ b ↔ a.toNat ≤ b.toNat := by
  rw [Char.le_def, UInt32.le_def, BitVec.le_def]
  exact Iff.rfl

lemma cn0 : ('0').toNat = 48 := rfl
lemma cn9 : ('9').toNat = 57 := rfl
lemma cnA : ('A').toNat = 65 := rfl
lemma cnF : ('F').toNat = 70 := rfl
lemma cna : ('a').toNat = 97 := rfl
lemma cnf : ('f').toNat = 102 := rfl

lemma toLower_of_not_upper (c : Char) (h : ¬(65 ≤ c.toNat ∧ c.toNat ≤ 90)) :
    c.toLower = c := by
  unfold Char.toLower
  simp only [ge_iff_le]
  rw [if_neg h]

lemma toLower_of_upper (c : Char) (h : 65 ≤ c.toNat ∧ c.toNat ≤ 90) :
    c.toLower = Char.ofNat (c.toNat + 32) := by
  unfold Char.toLower
  simp only [ge_iff_le]
  rw [if_pos h]

/-- Lower-casing sends any hexadecimal digit to a lower-case one. -/
lemma hex_toLower (c : Char) (h : isHexDigitChar c = true) :
    isLowerHexChar c.toLower = true := by
  simp only [isHexDigitChar, Bool.or_eq_true, Bool.and_eq_true, decide_eq_true_eq,
    char_le_iff, cn0, cn9, cnA, cnF, cna, cnf] at h
  obtain ⟨n, hn⟩ : ∃ n, c.toNat = n := ⟨_, rfl⟩
  rw [hn] at h
  rcases h with (⟨h1, h2⟩ | ⟨h1, h2⟩) | ⟨h1, h2⟩
  · rw [toLower_of_not_upper c (by omega)]
    simp only [isLowerHexChar, Bool.or_eq_true, Bool.and_eq_true, decide_eq_true_eq,
      char_le_iff, cn0, cn9, cna, cnf, hn]
    omega
  · rw [toLower_of_upper c (by omega), hn]
    clear hn
    interval_cases n <;> decide
  · rw [toLower_of_not_upper c (by omega)]
    simp only [isLowerHexChar, Bool.or_eq_true, Bool.and_eq_true, decide_eq_true_eq,
      char_le_iff, cn0, cn9, cna, cnf, hn]
    omega

/-- Lower-casing fixes characters that are already lower-case hex digits. -/
lemma lowerhex_toLower_fix (c : Char) (h : isLowerHexChar c = true) :
    c.toLower = c := by
  simp only [isLowerHexChar, Bool.or_eq_true, Bool.and_eq_true, decide_eq_true_eq,
    char_le_iff, cn0, cn9, cna, cnf] at h
  exact toLower_of_not_upper c (by omega)

/-- The only character that lower-cases to `'0'` is `'0'` itself. -/
lemma toLower_eq_digit0 (c : Char) (h : c.toLower = '0') : c = '0' := by
  by_cases hu : 65 ≤ c.toNat ∧ c.toNat ≤ 90
  · exfalso
    rw [toLower_of_upper c hu] at h
    obtain ⟨n, hn⟩ : ∃ n, c.toNat = n := ⟨_, rfl⟩
    rw [hn] at h hu
    clear hn
    obtain ⟨h1, h2⟩ := hu
    interval_cases n <;> exact absurd h (by decide)
  · rwa [toLower_of_not_upper c hu] at h

lemma pyLower_data (s : String) : (pyLower s).data = s.data.map Char.toLower := rfl

/-- A stored (lower-cased) EVM key is a fixed point of `pyLower`. -/
lemma pyLower_evm_fix (k : String) (h : isEVMKeyShape k = true) : pyLower k = k := by
  unfold isEVMKeyShape at h
  show String.mk (k.data.map Char.toLower) = String.mk k.data
  congr 1
  split at h
  case _ body heq =>
    rw [heq]
    simp only [Bool.and_eq_true, List.all_eq_true] at h
    simp only [List.map_cons, List.cons.injEq]
    refine ⟨by decide, by decide, ?_⟩
    calc body.map Char.toLower = body.map id := by
          apply List.map_congr_left
          intro c hc
          exact lowerhex_toLower_fix c (h.2 c hc)
      _ = body := List.map_id body
  case _ => exact absurd h (by decide)

/-- Lookup of a key all of whose candidates are ruled out. -/
lemma storeGet_eq_none (st : Store) (ca : String)
    (h : ∀ k ∈ storeKeys st, k ≠ ca) : storeGet st ca = none := by
  induction st with
  | nil => rfl
  | cons p rest ih =>
    have hp : p.1 ≠ ca := h p.1 (by simp [storeKeys])
    have : (p.1 == ca) = false := by simpa using hp
    simp only [storeGet, List.find?, this]
    exact ih fun k hk => h k (by simp [storeKeys] at hk ⊢; exact Or.inr hk)

/-- Lookup after appending a fresh key. -/
lemma storeGet_append_self (st : Store) (ca : String) (s : Snap)
    (h : storeGet st ca = none) : storeGet (st ++ [(ca, s)]) ca = some s := by
  induction st with
  | nil => simp [storeGet, List.find?]
  | cons p rest ih =>
    by_cases hp : (p.1 == ca) = true
    · simp only [storeGet, List.find?, hp] at h
      exact absurd h (by simp)
    · have hpf : (p.1 == ca) = false := by simpa using hp
      simp only [storeGet, List.find?, hpf, List.cons_append] at h ⊢
      exact ih h

/-- Deleting one key leaves lookups of any other key unchanged. -/
lemma storeGet_remove_ne (st : Store) (k ca : String) (h : ca ≠ k) :
    storeGet (storeRemove st k) ca = storeGet st ca := by
  induction st with
  | nil => rfl
  | cons p rest ih =>
    by_cases hp : (p.1 == k) = true
    · have hca : (p.1 == ca) = false := by
        simp only [beq_iff_eq] at hp ⊢
        simp only [beq_eq_false_iff_ne, ne_eq]
        rw [hp]
        exact fun hh => h hh.symm
      simp only [storeRemove, List.filter, bne, hp, Bool.not_true, storeGet, List.find?, hca]
      exact ih
    · have hpf : (p.1 == k) = false := by simpa using hp
      by_cases hca : (p.1 == ca) = true
      · simp only [storeRemove, List.filter, bne, hpf, Bool.not_false, storeGet,
          List.find?, hca]
      · have hcaf : (p.1 == ca) = false := by simpa using hca
        simp only [storeRemove, List.filter, bne, hpf, Bool.not_false, storeGet,
          List.find?, hcaf] at ih ⊢
        exact ih

/-- An `insertIfAbsent` on an already-present identifier is a no-op. -/
lemma insertIfAbsent_of_some (st : Store) (ca : String) (s s' : Snap)
    (h : storeGet st ca = some s') : insertIfAbsent st ca s = (false, st) := by
  unfold insertIfAbsent
  rw [h]

/-- An `insertIfAbsent` on a fresh identifier appends it. -/
lemma insertIfAbsent_of_none (st : Store) (ca : String) (s : Snap)
    (h : storeGet st ca = none) : insertIfAbsent st ca s = (true, st ++ [(ca, s)]) := by
  unfold insertIfAbsent
  rw [h]

end Lemmata

/-- C1: a first `insertIfAbsent` for a fresh identifier inserts
(`inserted = true`); every later call with the same identifier — whatever
quote it carries — reports `inserted = false` and leaves the store
unchanged, and `get` keeps returning the snapshot recorded by the first
call. -/
theorem insertIfAbsent_first_wins (st : Store) (ca : String) (s1 : Snap)
    (h : storeGet st ca = none) :
    (insertIfAbsent st ca s1).1 = true ∧
    storeGet (insertIfAbsent st ca s1).2 ca = some s1 ∧
    (∀ s2 : Snap, insertIfAbsent (insertIfAbsent st ca s1).2 ca s2
      = (false, (insertIfAbsent st ca s1).2)) ∧
    ∀ laters : List Snap,
      storeGet (laters.foldl (fun acc s => (insertIfAbsent acc ca s).2)
        (insertIfAbsent st ca s1).2) ca = some s1 := by
  have h1 : insertIfAbsent st ca s1 = (true, st ++ [(ca, s1)]) :=
    insertIfAbsent_of_none st ca s1 h
  have hget : storeGet (insertIfAbsent st ca s1).2 ca = some s1 := by
    rw [h1]
    exact storeGet_append_self st ca s1 h
  have hstable : ∀ (st' : Store), storeGet st' ca = some s1 →
      ∀ laters : List Snap,
        laters.foldl (fun acc s => (insertIfAbsent acc ca s).2) st' = st' := by
    intro st' hst' laters
    induction laters with
    | nil => rfl
    | cons s rest ih =>
      simp only [List.foldl, insertIfAbsent_of_some st' ca s s1 hst', ih]
  refine ⟨by rw [h1], hget, ?_, ?_⟩
  · intro s2
    exact insertIfAbsent_of_some _ ca s2 s1 hget
  · intro laters
    rw [hstable _ hget laters]
    exact hget

/-- Witness for C1 at a concrete store: inserting `snapA` under a fresh key
succeeds, a second insert with `snapB` is a no-op, and `get` returns
`snapA`. -/
theorem insertIfAbsent_first_wins_witness :
    (insertIfAbsent [] "0xabc" snapA).1 = true ∧
    storeGet (insertIfAbsent [] "0xabc" snapA).2 "0xabc" = some snapA ∧
    insertIfAbsent (insertIfAbsent [] "0xabc" snapA).2 "0xabc" snapB
      = (false, (insertIfAbsent [] "0xabc" snapA).2) := by
  have h := insertIfAbsent_first_wins [] "0xabc" snapA rfl
  exact ⟨h.1, h.2.1, h.2.2.1 snapB⟩

/-- C2: the multiplier prefers the market-cap ratio when both market caps
are nonzero, falls back to the price ratio when both prices are nonzero,
and is the sentinel 0 otherwise; in particular 100 → 250 in market cap
gives 2.5 whatever the prices, 0.001 → 0.004 in price (with zero market
caps) gives 4, and all-zero inputs give 0. -/
theorem multiplier_precedence :
    (∀ sm sp nm np : ℚ,
      (sm ≠ 0 → nm ≠ 0 → multiplier sm sp nm np = nm / sm) ∧
      (¬(sm ≠ 0 ∧ nm ≠ 0) → sp ≠ 0 → np ≠ 0 → multiplier sm sp nm np = np / sp) ∧
      (¬(sm ≠ 0 ∧ nm ≠ 0) → ¬(sp ≠ 0 ∧ np ≠ 0) → multiplier sm sp nm np = 0)) ∧
    (∀ sp np : ℚ, multiplier 100 sp 250 np = 5 / 2) ∧
    multiplier 0 (1 / 1000) 0 (4 / 1000) = 4 ∧
    multiplier 0 0 0 0 = 0 := by
  refine ⟨fun sm sp nm np => ⟨?_, ?_, ?_⟩, fun sp np => ?_, ?_, ?_⟩
  · intro h1 h2
    unfold multiplier
    rw [if_pos ⟨h1, h2⟩, if_pos h1]
  · intro h h1 h2
    unfold multiplier
    rw [if_neg h, if_pos ⟨h1, h2⟩, if_pos h1]
  · intro h h2
    unfold multiplier
    rw [if_neg h, if_neg h2]
  · unfold multiplier
    norm_num
  · unfold multiplier
    norm_num
  · unfold multiplier
    norm_num

/-- Witness for C2: the market-cap branch evaluated at concrete nonzero
inputs. -/
theorem multiplier_precedence_witness :
    multiplier 100 3 250 7 = 250 / 100 :=
  (multiplier_precedence.1 100 3 250 7).1 (by norm_num) (by norm_num)

/-- C3: tier selection is exhaustive on nonnegative multipliers with
half-open boundaries `[0,2) → low`, `[2,10) → mid`, `[10,20) → high`,
`[20,∞) → ultra`; the six boundary probes land in the stated tiers. -/
theorem meme_key_tiers :
    (∀ m : ℚ, 0 ≤ m →
      (m < 2 → meme_key m = MemeKey.low) ∧
      (2 ≤ m → m < 10 → meme_key m = MemeKey.mid) ∧
      (10 ≤ m → m < 20 → meme_key m = MemeKey.high) ∧
      (20 ≤ m → meme_key m = MemeKey.ultra)) ∧
    meme_key (199 / 100) = MemeKey.low ∧
    meme_key 2 = MemeKey.mid ∧
    meme_key (9999 / 1000) = MemeKey.mid ∧
    meme_key 10 = MemeKey.high ∧
    meme_key (19999 / 1000) = MemeKey.high ∧
    meme_key 20 = MemeKey.ultra := by
  have U : ∀ m : ℚ, 0 ≤ m →
      (m < 2 → meme_key m = MemeKey.low) ∧
      (2 ≤ m → m < 10 → meme_key m = MemeKey.mid) ∧
      (10 ≤ m → m < 20 → meme_key m = MemeKey.high) ∧
      (20 ≤ m → meme_key m = MemeKey.ultra) := by
    intro m h0
    refine ⟨?_, ?_, ?_, ?_⟩
    · intro h2
      unfold meme_key
      by_cases h1 : m < 1
      · rw [if_pos h1]
      · rw [if_neg h1, if_pos ⟨le_of_not_lt h1, h2⟩]
    · intro ha hb
      unfold meme_key
      rw [if_neg (by linarith), if_neg (by rintro ⟨_, hc⟩; linarith),
        if_pos ⟨ha, hb⟩]
    · intro ha hb
      unfold meme_key
      rw [if_neg (by linarith), if_neg (by rintro ⟨_, hc⟩; linarith),
        if_neg (by rintro ⟨_, hc⟩; linarith), if_pos ⟨ha, hb⟩]
    · intro ha
      unfold meme_key
      rw [if_neg (by linarith), if_neg (by rintro ⟨_, hc⟩; linarith),
        if_neg (by rintro ⟨_, hc⟩; linarith), if_neg (by rintro ⟨_, hc⟩; linarith)]
  refine ⟨U, ?_, ?_, ?_, ?_, ?_, ?_⟩
  · exact (U (199 / 100) (by norm_num)).1 (by norm_num)
  · exact (U 2 (by norm_num)).2.1 (by norm_num) (by norm_num)
  · exact (U (9999 / 1000) (by norm_num)).2.1 (by norm_num) (by norm_num)
  · exact (U 10 (by norm_num)).2.2.1 (by norm_num) (by norm_num)
  · exact (U (19999 / 1000) (by norm_num)).2.2.1 (by norm_num) (by norm_num)
  · exact (U 20 (by norm_num)).2.2.2 (by norm_num)

/-- Witness for C3: the universal part applied at the concrete multiplier 3
lands in the mid tier. -/
theorem meme_key_tiers_witness : meme_key 3 = MemeKey.mid :=
  (meme_key_tiers.1 3 (by norm_num)).2.1 (by norm_num) (by norm_num)

/-- C4: extraction tries the EVM pattern first — whenever the EVM scan has
any match, the first one is returned lower-cased with family `EVM`; only
when the EVM scan is empty does the SOL scan decide, its first match
returned with case preserved and family `SOL`. -/
theorem detect_contract_address_precedence (msg : String) :
    (∀ e rest, evm_findall msg = e :: rest →
      detect_contract_address msg = (some (pyLower e), some ChainFamily.EVM)) ∧
    (evm_findall msg = [] → ∀ s rest, sol_findall msg = s :: rest →
      detect_contract_address msg = (some s, some ChainFamily.SOL)) := by
  by_cases hm : msg = ""
  · subst hm
    constructor
    · intro e rest h
      rw [show evm_findall "" = [] from rfl] at h
      simp at h
    · intro _ s rest h
      rw [show sol_findall "" = [] from rfl] at h
      simp at h
  · constructor
    · intro e rest h
      unfold detect_contract_address
      rw [if_neg hm, h]
    · intro h0 s rest h
      unfold detect_contract_address
      rw [if_neg hm, h0, h]

/-- Witness for C4 on a concrete message containing both an EVM-style and
a SOL-style address: the EVM match wins and is lower-cased. -/
theorem detect_contract_address_precedence_witness :
    detect_contract_address msgBothW
      = (some "0xabcdef1234567890abcdef1234567890abcdef12", some ChainFamily.EVM) ∧
    sol_findall msgBothW ≠ [] := by
  constructor
  · rw [(detect_contract_address_precedence msgBothW).1 evmW [] (by decide)]
    rfl
  · decide

/-- Size bound of the shrink-to-fit loop: the result never exceeds the
starting size (nor the default floor of 10 when the start is below it). -/
lemma fit_text_go_le (measure : FontT → Nat) (loadOk : Bool) (fp : Option String)
    (mw : Nat) : ∀ fuel size,
    fontSize (fit_text_go measure loadOk fp mw fuel size) ≤ max size 10 := by
  intro fuel
  induction fuel with
  | zero =>
    intro size
    simp [fit_text_go, fontSize]
  | succ n ih =>
    intro size
    unfold fit_text_go
    split_ifs with hsz hload hfit
    · cases fp with
      | none => simp only [mkFont, fontSize]; omega
      | some q => simp only [mkFont, fontSize]; omega
    · have := ih (size - 2)
      omega
    · simp only [fontSize]
      omega
    · simp only [fontSize]
      omega

/-- Characterisation of a truetype result of the shrink-to-fit loop: it is
the first (largest) candidate size on the descending 2-step chain whose
measured width fits. -/
lemma fit_text_go_truetype (measure : FontT → Nat) (loadOk : Bool) (fp : Option String)
    (mw : Nat) : ∀ fuel size p s,
    fit_text_go measure loadOk fp mw fuel size = FontT.truetype p s →
      fp = some p ∧ 10 < s ∧ s ≤ size ∧ (size - s) % 2 = 0 ∧
      measure (FontT.truetype p s) ≤ mw ∧
      ∀ k, s < k → k ≤ size → (size - k) % 2 = 0 → mw < measure (FontT.truetype p k) := by
  intro fuel
  induction fuel with
  | zero =>
    intro size p s h
    exact absurd h (by simp [fit_text_go])
  | succ n ih =>
    intro size p s h
    unfold fit_text_go at h
    split_ifs at h with hsz hload hfit
    · cases fp with
      | none => exact absurd h (by simp [mkFont])
      | some q =>
        simp only [mkFont, FontT.truetype.injEq] at h
        obtain ⟨hq, hs⟩ := h
        subst hq
        subst hs
        simp only [mkFont] at hfit
        exact ⟨rfl, hsz, le_refl _, by omega, hfit, fun k hk1 hk2 _ => by omega⟩
    · obtain ⟨hfp, h10, hle, hmod, hfitm, hchain⟩ := ih (size - 2) p s h
      refine ⟨hfp, h10, by omega, by omega, hfitm, ?_⟩
      intro k hk1 hk2 hk3
      by_cases hk4 : k ≤ size - 2
      · exact hchain k hk1 hk4 (by omega)
      · have hks : k = size := by omega
        subst hks
        rw [hfp] at hfit
        simp only [mkFont] at hfit
        omega

/-- When no candidate size fits, the loop reaches the floor and returns the
default typeface. -/
lemma fit_text_go_overflow (measure : FontT → Nat) (loadOk : Bool) (fp : Option String)
    (mw : Nat) (hover : ∀ f, mw < measure f) : ∀ fuel size,
    fit_text_go measure loadOk fp mw fuel size = FontT.default := by
  intro fuel
  induction fuel with
  | zero => intro size; rfl
  | succ n ih =>
    intro size
    unfold fit_text_go
    split_ifs with hsz hload hfit
    · exact absurd hfit (by have := hover (mkFont fp size); omega)
    · exact ih (size - 2)
    · rfl
    · rfl

/-- C5: the auto-fit size search starts at the configured maximum and walks
down in steps of 2 — a returned truetype size fits the width bound while
every larger size on the chain overflows — and the returned size is never
above the configured maximum nor below the floor of 10 (the size of the
built-in default typeface); when nothing fits, the floor (default typeface)
is accepted despite the overflow. -/
theorem fit_text_size_bounds (measure : FontT → Nat) (loadOk : Bool) (fp : Option String)
    (mw ss : Nat) (hss : 10 ≤ ss) :
    fontSize (fit_text measure loadOk fp mw ss) ≤ ss ∧
    10 ≤ fontSize (fit_text measure loadOk fp mw ss) ∧
    (∀ p s, fit_text measure loadOk fp mw ss = FontT.truetype p s →
      measure (FontT.truetype p s) ≤ mw ∧ 10 < s ∧ s ≤ ss ∧ (ss - s) % 2 = 0 ∧
      ∀ k, s < k → k ≤ ss → (ss - k) % 2 = 0 → mw < measure (FontT.truetype p k)) ∧
    ((∀ f, mw < measure f) → fit_text measure loadOk fp mw ss = FontT.default) := by
  have hgle : fontSize (fit_text measure loadOk fp mw ss) ≤ max ss 10 :=
    fit_text_go_le measure loadOk fp mw ss ss
  rw [max_eq_left hss] at hgle
  refine ⟨hgle, ?_, ?_, ?_⟩
  · cases hft : fit_text measure loadOk fp mw ss with
    | default => simp [fontSize]
    | truetype p s =>
      have h10 := (fit_text_go_truetype measure loadOk fp mw ss ss p s hft).2.1
      simp only [fontSize]
      omega
  · intro p s hft
    obtain ⟨_, h10, hsle, hmod, hfit, hchain⟩ :=
      fit_text_go_truetype measure loadOk fp mw ss ss p s hft
    exact ⟨hfit, h10, hsle, hmod, hchain⟩
  · intro hover
    exact fit_text_go_overflow measure loadOk fp mw hover ss ss

/-- Witness for C5 with a concrete width-10-per-size measurer, bound 420
and start size 64: the returned size obeys both bounds. -/
theorem fit_text_size_bounds_witness :
    fontSize (fit_text (fun f => fontSize f * 10) true (some "arial.ttf") 420 64) ≤ 64 ∧
    10 ≤ fontSize (fit_text (fun f => fontSize f * 10) true (some "arial.ttf") 420 64) :=
  ⟨(fit_text_size_bounds (fun f => fontSize f * 10) true (some "arial.ttf") 420 64
      (by norm_num)).1,
   (fit_text_size_bounds (fun f => fontSize f * 10) true (some "arial.ttf") 420 64
      (by norm_num)).2.1⟩

/-- C6 counterexample: a first record whose base token is missing its
symbol but carries a name makes the quote's symbol that name — not the
first 8 characters of the identifier, as the claim states for a missing
symbol. -/
theorem get_token_data_symbol_cex :
    pairNameOnly.baseToken = some { symbol := none, name := some "ALPHA" } ∧
    (get_token_data "0x1234567890abcdef1234567890abcdef12345678"
      (some [pairNameOnly])).map TokenData.symbol = some "ALPHA" ∧
    "ALPHA" ≠ ("0x1234567890abcdef1234567890abcdef12345678").take 8 := by
  exact ⟨rfl, rfl, by decide⟩

/-- C6 (amended): the quote is built from the first record; missing price
or market-cap fields are coerced to 0; a missing (or empty) symbol falls
back first to the base token's name and only when that is also missing or
empty to the first 8 characters of the identifier. -/
theorem get_token_data_first_record (ca : String) (p : Pair) (rest : List Pair) :
    ∃ td : TokenData, get_token_data ca (some (p :: rest)) = some td ∧
      td.price = p.priceUsd.getD 0 ∧
      td.mcap = p.fdv.getD 0 ∧
      td.chain = p.chainId.getD "unknown" ∧
      get_token_data ca (some (p :: rest)) = get_token_data ca (some [p]) ∧
      (∀ bt, p.baseToken = some bt →
        (bt.symbol = none ∨ bt.symbol = some "") →
        ∀ n, bt.name = some n → n ≠ "" → td.symbol = n) ∧
      ((p.baseToken = none ∨
        ∃ bt, p.baseToken = some bt ∧ (bt.symbol = none ∨ bt.symbol = some "") ∧
          (bt.name = none ∨ bt.name = some "")) → td.symbol = ca.take 8) := by
  refine ⟨_, rfl, rfl, rfl, rfl, rfl, ?_, ?_⟩
  · intro bt hbt hsym n hn hne
    show pyOrStr (p.baseToken.getD { symbol := none, name := none }).symbol
      (pyOrStr (p.baseToken.getD { symbol := none, name := none }).name (ca.take 8)) = n
    rw [hbt]
    simp only [Option.getD_some]
    rcases hsym with h | h <;> rw [h, hn] <;> simp [pyOrStr, hne]
  · intro hcase
    show pyOrStr (p.baseToken.getD { symbol := none, name := none }).symbol
      (pyOrStr (p.baseToken.getD { symbol := none, name := none }).name (ca.take 8))
      = ca.take 8
    rcases hcase with h | ⟨bt, hbt, hsym, hname⟩
    · rw [h]
      rfl
    · rw [hbt]
      simp only [Option.getD_some]
      rcases hsym with h1 | h1 <;> rcases hname with h2 | h2 <;> rw [h1, h2] <;>
        simp [pyOrStr]

/-- Witness for the amended C6: the name fallback fires at a concrete
payload. -/
theorem get_token_data_first_record_witness :
    ∃ td : TokenData,
      get_token_data "So11111111111111111111111111111111111111112"
        (some [pairNameOnly]) = some td ∧ td.symbol = "ALPHA" := by
  obtain ⟨td, h1, _, _, _, _, hname, _⟩ :=
    get_token_data_first_record "So11111111111111111111111111111111111111112"
      pairNameOnly []
  exact ⟨td, h1, hname _ rfl (Or.inl rfl) "ALPHA" rfl (by decide)⟩

/-- A shrink-to-fit search with no font path can only produce the default
typeface. -/
lemma fit_text_go_none_path (measure : FontT → Nat) (loadOk : Bool) (mw : Nat) :
    ∀ fuel size, fit_text_go measure loadOk none mw fuel size = FontT.default := by
  intro fuel
  induction fuel with
  | zero => intro size; rfl
  | succ n ih =>
    intro size
    unfold fit_text_go
    split_ifs <;> first | rfl | exact ih (size - 2)

/-- C7: rendering builds its command list unconditionally — the result is
`ok` exactly when encoding succeeds (the only failure that propagates);
when every illustration source fails the command list simply contains no
paste; when every font load fails every command uses the built-in default
typeface. -/
theorem make_card_image_failure_semantics
    (env : RenderEnv) (symbol ca : String) (sm sp nm np mult : ℚ) (chain : String)
    (hsm : 0 ≤ sm) (hsp : 0 ≤ sp) (hnm : 0 ≤ nm) (hnp : 0 ≤ np) (hm : 0 ≤ mult)
    (hsym : symbol ≠ "") (hch : chain ≠ "") :
    ((make_card_image env symbol ca sm sp nm np mult chain).isOk = true ↔
      (env.encodePNG (renderOps env symbol ca sm sp nm np mult chain)).isSome = true) ∧
    (choose_local_or_fallback env (meme_key mult) = none →
      ∀ op ∈ renderOps env symbol ca sm sp nm np mult chain, opIsPaste op = false) ∧
    (pickFontPath env = none →
      ∀ op ∈ renderOps env symbol ca sm sp nm np mult chain, opUsesDefaultFont op = true) := by
  refine ⟨?_, ?_, ?_⟩
  · cases henc : env.encodePNG (renderOps env symbol ca sm sp nm np mult chain) with
    | none => simp [make_card_image, henc, Except.isOk, Except.toBool]
    | some b => simp [make_card_image, henc, Except.isOk, Except.toBool]
  · intro hmeme op hop
    simp only [renderOps, hmeme, List.nil_append, List.map_cons, List.map_nil,
      List.mem_append, List.mem_cons, List.not_mem_nil, or_false, false_or,
      or_assoc] at hop
    rcases hop with rfl | rfl | rfl | rfl | rfl | rfl | rfl | rfl | rfl | rfl | rfl | rfl <;>
      rfl
  · intro hfp op hop
    simp only [renderOps, hfp, mkFont, fit_text, fit_text_go_none_path,
      List.map_cons, List.map_nil, List.mem_append, List.mem_cons,
      List.not_mem_nil, or_false] at hop
    cases hmeme : choose_local_or_fallback env (meme_key mult) with
    | none =>
      rw [hmeme] at hop
      simp only [List.nil_append, List.mem_append, List.mem_cons, List.not_mem_nil,
        or_false, false_or, or_assoc] at hop
      rcases hop with rfl | rfl | rfl | rfl | rfl | rfl | rfl | rfl | rfl | rfl | rfl | rfl <;>
        rfl
    | some m =>
      rw [hmeme] at hop
      simp only [List.singleton_append, List.mem_cons, List.mem_append,
        List.not_mem_nil, or_false, false_or, or_assoc] at hop
      rcases hop with rfl | rfl | rfl | rfl | rfl | rfl | rfl | rfl | rfl | rfl | rfl | rfl | rfl <;>
        rfl

/-- Witness for C7: with every local file absent, every fetch and every
font load failing, rendering at valid concrete inputs still returns
encoded bytes. -/
theorem make_card_image_failure_semantics_witness :
    (make_card_image envAllFail "PEPE" "0xabc" 0 0 0 0 (5 / 2) "eth").isOk = true :=
  ((make_card_image_failure_semantics envAllFail "PEPE" "0xabc" 0 0 0 0 (5 / 2) "eth"
      le_rfl le_rfl le_rfl le_rfl (by norm_num) (by decide) (by decide)).1).mpr rfl

/-- C9 counterexample: with both the mixed-case SOL key `solUpW` (a genuine
extractor output, as the first conjunct records) and its lower-case variant
tracked, `/untrack solUpW` does not report "not tracked" — it reports a
removal and deletes the *other* entry (the lower-case key). -/
theorem untrack_lowercases_cex :
    detect_contract_address solUpW = (some solUpW, some ChainFamily.SOL) ∧
    storeGet st9 solUpW = some snapA ∧
    (untrack st9 ["/untrack", solUpW]).1 = UntrackReply.removed solLowW ∧
    (untrack st9 ["/untrack", solUpW]).2 = [(solUpW, snapA)] ∧
    (untrack st9 ["/untrack", solUpW]).1 ≠ UntrackReply.notTracked := by
  exact ⟨by decide, by decide, by decide, by decide, by decide⟩

/-- C9 (amended): `untrack` lower-cases its argument before lookup, so an
entry stored under a key that is not a fixed point of lower-casing (any
SOL key with an upper-case letter) can never be removed by naming it: its
snapshot survives every such call, and whenever the lower-cased variant is
not itself a tracked key the call reports "not tracked" and leaves the
store unchanged. -/
theorem untrack_preserves_mixed_case (st : Store) (arg : String) (snap : Snap)
    (hmix : pyLower arg ≠ arg) :
    (storeGet st arg = some snap →
      storeGet (untrack st ["/untrack", arg]).2 arg = some snap) ∧
    (storeGet st (pyLower arg) = none →
      untrack st ["/untrack", arg] = (UntrackReply.notTracked, st)) := by
  constructor
  · intro hget
    cases hlk : storeGet st (pyLower arg) with
    | none =>
      simp only [untrack, hlk]
      exact hget
    | some s0 =>
      simp only [untrack, hlk]
      rw [storeGet_remove_ne st (pyLower arg) arg (Ne.symm hmix)]
      exact hget
  · intro hnone
    simp only [untrack, hnone]

/-- Witness for the amended C9: the mixed-case entry survives `/untrack`
on its own identifier, which reports "not tracked". -/
theorem untrack_preserves_mixed_case_witness :
    storeGet (untrack [(solUpW, snapA)] ["/untrack", solUpW]).2 solUpW = some snapA ∧
    untrack [(solUpW, snapA)] ["/untrack", solUpW]
      = (UntrackReply.notTracked, [(solUpW, snapA)]) := by
  have h := untrack_preserves_mixed_case [(solUpW, snapA)] solUpW snapA (by decide)
  exact ⟨h.1 (by decide), h.2 (by decide)⟩

/-- No store key of extractor shape can coincide with an EVM-form argument
that contains an upper-case hex digit: lower-cased EVM keys are fixed
points of lower-casing, and SOL keys cannot contain the `'0'` of the `0x`
prefix. -/
lemma detect_key_ne (a : String) (hev : isEVMKeyShape (pyLower a) = true)
    (hne : pyLower a ≠ a) (k : String) (hk : isDetectKeyShape k = true) : k ≠ a := by
  intro heq
  rw [heq] at hk
  unfold isDetectKeyShape at hk
  rw [Bool.or_eq_true] at hk
  cases hk with
  | inl hEVM => exact hne (pyLower_evm_fix a hEVM)
  | inr hSol =>
    unfold isEVMKeyShape at hev
    cases hd : a.data with
    | nil =>
      rw [pyLower_data, hd] at hev
      exact absurd hev (by decide)
    | cons c0 rest =>
      rw [pyLower_data, hd] at hev
      simp only [List.map_cons] at hev
      split at hev
      case _ body heq =>
        injection heq with h0 h1
        have hc0 : c0 = '0' := toLower_eq_digit0 c0 h0
        unfold isSolKeyShape at hSol
        simp only [Bool.and_eq_true, List.all_eq_true, decide_eq_true_eq] at hSol
        have h58 := hSol.2 '0' (by rw [hd, hc0]; exact List.mem_cons_self _ _)
        exact absurd h58 (by decide)
      case _ => exact absurd hev (by decide)

/-- C10: with an explicit argument, `/pnl` uses `parts[1]` verbatim as the
store key — no lower-casing, no pattern extraction (the last conjunct shows
the reply-to path alone goes through the extractor).  Hence for a tracked
EVM baseline (stored lower-cased, like every store key an extractor
output), an argument spelling the same address with any upper-case hex
digit is answered "unknown identifier" although the baseline exists. -/
theorem pnl_explicit_arg_verbatim (st : Store) (cmd a : String) (rest : List String)
    (reply : Option String) (snap : Snap)
    (hkeys : ∀ k ∈ storeKeys st, isDetectKeyShape k = true)
    (hev : isEVMKeyShape (pyLower a) = true)
    (hne : pyLower a ≠ a)
    (hbase : storeGet st (pyLower a) = some snap) :
    pnl_resolve_ca (cmd :: a :: rest) reply = some a ∧
    pnl_lookup st (cmd :: a :: rest) reply = PnlLookup.unknown ∧
    (∀ rt : String, pnl_resolve_ca [cmd] (some rt) = (detect_contract_address rt).1) := by
  have hnone : storeGet st a = none :=
    storeGet_eq_none st a (fun k hk => detect_key_ne a hev hne k (hkeys k hk))
  refine ⟨rfl, ?_, fun rt => rfl⟩
  simp only [pnl_lookup, pnl_resolve_ca, hnone]

/-- Witness for C10: a tracked lower-case EVM key, queried as
`/pnl 0xA…a`, is reported unknown although its baseline is stored. -/
theorem pnl_explicit_arg_verbatim_witness :
    pnl_lookup st10 ["/pnl", evmArgW] none = PnlLookup.unknown ∧
    storeGet st10 (pyLower evmArgW) = some snapA := by
  have h := pnl_explicit_arg_verbatim st10 "/pnl" evmArgW [] none snapA
    (by decide) (by decide) (by decide) (by decide)
  exact ⟨h.2.1, by decide⟩

/-! ### Store keys are extractor outputs

The invariant assumed by `pnl_explicit_arg_verbatim` — every store key has
shape `isDetectKeyShape` — is established here: every match emitted by the
scanners has the pattern's shape, hence every `detect_contract_address`
output does, and `handle_message` (the only writer) preserves the
invariant. -/

/-- Every match emitted by the scanning loop was produced by the matcher. -/
lemma mem_findallAux (matchAt : Option Char → List Char → Option (List Char × List Char)) :
    ∀ (fuel : Nat) (prev : Option Char) (s : List Char) (m : List Char),
      m ∈ findallAux matchAt prev s fuel →
      ∃ prev2 s2 post, matchAt prev2 s2 = some (m, post) := by
  intro fuel
  induction fuel with
  | zero =>
    intro prev s m hm
    simp [findallAux] at hm
  | succ n ih =>
    intro prev s m hm
    cases s with
    | nil => simp [findallAux] at hm
    | cons c rest =>
      unfold findallAux at hm
      cases hma : matchAt prev (c :: rest) with
      | some pr =>
        obtain ⟨mm, post⟩ := pr
        rw [hma] at hm
        rcases List.mem_cons.mp hm with rfl | hm2
        · exact ⟨prev, c :: rest, post, hma⟩
        · exact ih _ _ _ hm2
      | none =>
        rw [hma] at hm
        exact ih _ _ _ hm

/-- A successful EVM match is `0x` followed by 40 hex digits. -/
lemma evmMatchAt_shape (prev : Option Char) (s m post : List Char)
    (h : evmMatchAt prev s = some (m, post)) :
    ∃ body, m = '0' :: 'x' :: body ∧ body.length = 40 ∧ body.all isHexDigitChar = true := by
  simp only [evmMatchAt] at h
  split_ifs at h with hc
  injection h with h1
  rw [Prod.mk.injEq] at h1
  obtain ⟨hm, hpost⟩ := h1
  subst hm
  simp only [Bool.and_eq_true, beq_iff_eq] at hc
  obtain ⟨⟨⟨hb, hlen⟩, hmatch⟩, hafter⟩ := hc
  split at hmatch
  case _ body heq =>
    refine ⟨body, heq, ?_, hmatch⟩
    rw [heq] at hlen
    simpa using hlen
  case _ => exact absurd hmatch (by simp)

/-- A successful SOL match is a base-58 run of length 32 to 44. -/
lemma solMatchAt_shape (prev : Option Char) (s m post : List Char)
    (h : solMatchAt prev s = some (m, post)) :
    32 ≤ m.length ∧ m.length ≤ 44 ∧ m.all isBase58Char = true := by
  simp only [solMatchAt] at h
  split_ifs at h with hc
  injection h with h1
  rw [Prod.mk.injEq] at h1
  obtain ⟨hm, hpost⟩ := h1
  subst hm
  simp only [Bool.and_eq_true, decide_eq_true_eq] at hc
  obtain ⟨⟨⟨hb, h32⟩, h44⟩, hafter⟩ := hc
  refine ⟨h32, h44, ?_⟩
  rw [List.all_eq_true]
  intro c hcm
  exact List.mem_takeWhile_imp hcm

/-- Every extractor output has a store-key shape: lower-cased EVM or
case-preserved SOL. -/
lemma detect_shape (msg ca : String) (fam : Option ChainFamily)
    (h : detect_contract_address msg = (some ca, fam)) : isDetectKeyShape ca = true := by
  unfold detect_contract_address at h
  split_ifs at h with hm
  · simp at h
  · cases hev : evm_findall msg with
    | cons e tl =>
      rw [hev] at h
      simp only [Prod.mk.injEq, Option.some.injEq] at h
      obtain ⟨hca, _⟩ := h
      subst hca
      have he : e ∈ evm_findall msg := by
        rw [hev]
        exact List.mem_cons_self _ _
      unfold evm_findall at he
      obtain ⟨l, hl, hml⟩ := List.mem_map.mp he
      obtain ⟨p2, s2, post, hmm⟩ := mem_findallAux evmMatchAt _ _ _ _ hl
      obtain ⟨body, hbody, hblen, hbhex⟩ := evmMatchAt_shape p2 s2 l post hmm
      subst hml
      unfold isDetectKeyShape
      rw [Bool.or_eq_true]
      left
      unfold isEVMKeyShape
      rw [pyLower_data]
      show (match (String.mk l).data.map Char.toLower with
        | '0' :: 'x' :: body => body.length == 40 && body.all isLowerHexChar
        | _ => false) = true
      have hdata : (String.mk l).data = l := rfl
      rw [hdata, hbody]
      simp only [List.map_cons, show Char.toLower '0' = '0' from rfl,
        show Char.toLower 'x' = 'x' from rfl]
      rw [Bool.and_eq_true, beq_iff_eq, List.length_map, List.all_eq_true]
      refine ⟨hblen, ?_⟩
      intro c hc
      obtain ⟨c0, hc0, hc0l⟩ := List.mem_map.mp hc
      rw [List.all_eq_true] at hbhex
      rw [← hc0l]
      exact hex_toLower c0 (hbhex c0 hc0)
    | nil =>
      rw [hev] at h
      cases hsol : sol_findall msg with
      | nil =>
        rw [hsol] at h
        simp at h
      | cons s0 tl =>
        rw [hsol] at h
        simp only [Prod.mk.injEq, Option.some.injEq] at h
        obtain ⟨hca, _⟩ := h
        subst hca
        have hs : s0 ∈ sol_findall msg := by
          rw [hsol]
          exact List.mem_cons_self _ _
        unfold sol_findall at hs
        obtain ⟨l, hl, hml⟩ := List.mem_map.mp hs
        obtain ⟨p2, s2, post, hmm⟩ := mem_findallAux solMatchAt _ _ _ _ hl
        obtain ⟨h32, h44, h58⟩ := solMatchAt_shape p2 s2 l post hmm
        subst hml
        unfold isDetectKeyShape
        rw [Bool.or_eq_true]
        right
        unfold isSolKeyShape
        have hdata : (String.mk l).data = l := rfl
        rw [hdata]
        simp only [Bool.and_eq_true, decide_eq_true_eq]
        exact ⟨⟨h32, h44⟩, h58⟩

/-- `handle_message` — the only writer of the store — preserves the
invariant that every key is an extractor output. -/
lemma handle_message_keys (st : Store) (text : String)
    (resolve : String → Option TokenData) (now : Nat) (poster : String)
    (hkeys : ∀ k ∈ storeKeys st, isDetectKeyShape k = true) :
    ∀ k ∈ storeKeys (handle_message st text resolve now poster).2,
      isDetectKeyShape k = true := by
  intro k hk
  unfold handle_message at hk
  cases hd : detect_contract_address text with
  | mk o fam =>
    rw [hd] at hk
    cases o with
    | none => exact hkeys k hk
    | some ca =>
      dsimp only at hk
      cases hr : resolve ca with
      | none =>
        rw [hr] at hk
        exact hkeys k hk
      | some d =>
        rw [hr] at hk
        dsimp only at hk
        cases hg : storeGet st ca with
        | some s0 =>
          rw [hg] at hk
          exact hkeys k hk
        | none =>
          rw [hg] at hk
          dsimp only at hk
          simp only [storeKeys, List.map_append, List.map_cons, List.map_nil,
            List.mem_append, List.mem_cons, List.not_mem_nil, or_false] at hk
          rcases hk with hk | hk
          · exact hkeys k (by simpa [storeKeys] using hk)
          · subst hk
            exact detect_shape text k fam hd

end AlphaHouse
